import Mathlib

/-
Verification development for the sharded user-record store (db_service/shard.py).

The Python source is shallowly embedded: strings are `List Char` (one char per
byte; faithful for the ASCII-range inputs the store is used with), dictionaries
are insertion-ordered association lists (Python dict semantics: updating an
existing key keeps its position, a new key is appended at the end), the
filesystem is a path -> content association list, and `int(time.time())` is an
explicit `now : Nat` argument.  Index keys `f"{field}:{value}"` are modelled as
`Field × List Char` pairs: field names contain no colon, so the string key and
the pair are in bijection.  Exceptions raised by the Python code are `Except`
errors; `async with lock:` sections serialize the code, so the sequential
embedding of each operation is its observable behaviour.
-/

set_option maxRecDepth 4000

namespace ShardDB

/-- Field names of a user record, in the canonical order of `FIELDS` in shard.py. -/
inductive Field where
  | id
  | username
  | password_hash
  | ip_reg
  | last_logged
  | last_ip
deriving DecidableEq, Repr

/-- FIELDS from shard.py line 14. -/
def FIELDS : List Field :=
  [Field.id, Field.username, Field.password_hash, Field.ip_reg, Field.last_logged, Field.last_ip]

/-- MAX_LENGTHS from shard.py lines 15-22. -/
def MAX_LENGTHS : Field → Nat
  | Field.id => 10
  | Field.username => 24
  | Field.password_hash => 64
  | Field.ip_reg => 16
  | Field.last_logged => 19
  | Field.last_ip => 16

/-- RECORD_LIMIT from shard.py line 12. -/
def RECORD_LIMIT : Nat := 5000

/-- LOG_LIMIT from shard.py line 23. -/
def LOG_LIMIT : Nat := 100

/-- RECORD_SIZE from shard.py line 24: sum of max lengths plus one separator between fields. -/
def RECORD_SIZE : Nat := (FIELDS.map MAX_LENGTHS).sum + (FIELDS.length - 1)

/-- Dictionary lookup on an insertion-ordered association list. -/
def getA {α β : Type} [DecidableEq α] : List (α × β) → α → Option β
  | [], _ => none
  | (k0, v0) :: rest, k => if k = k0 then some v0 else getA rest k

/-- Dictionary assignment: update an existing key in place, else append at the end. -/
def setA {α β : Type} [DecidableEq α] : List (α × β) → α → β → List (α × β)
  | [], k, v => [(k, v)]
  | (k0, v0) :: rest, k, v => if k = k0 then (k0, v) :: rest else (k0, v0) :: setA rest k v

/-- Dictionary deletion (`del d[k]`): a dict holds at most one binding per
key, so deleting the key drops that binding; the remaining order is kept. -/
def eraseA {α β : Type} [DecidableEq α] (l : List (α × β)) (k : α) : List (α × β) :=
  l.filter (fun kv => decide (kv.1 ≠ k))

/-- Python `d.setdefault(k, []).append(x)`: append to an existing list value, else bind `[x]`. -/
def appendA {α β : Type} [DecidableEq α] (l : List (α × List β)) (k : α) (x : β) :
    List (α × List β) :=
  match getA l k with
  | some xs => setA l k (xs ++ [x])
  | none => l ++ [(k, [x])]

/-- Python `list.remove(x)`: drop the first occurrence of `x`. -/
def removeFirst {β : Type} [DecidableEq β] : List β → β → List β
  | [], _ => []
  | y :: rest, x => if y = x then rest else y :: removeFirst rest x

/-- The `_clean_field` helper (shard.py line 49-50): drop every newline and separator byte. -/
def cleanField (v : List Char) : List Char :=
  v.filter (fun c => !(c == '\n' || c == '|'))

/-- Characters treated as whitespace by Python `str.strip()` (for ASCII input). -/
def isSpaceB (c : Char) : Bool :=
  c == ' ' || c == '\t' || c == '\n' || c == '\r' || c == '\x0b' || c == '\x0c'

/-- Python `str.lstrip()`. -/
def lstrip (l : List Char) : List Char := l.dropWhile isSpaceB

/-- Python `str.rstrip()`. -/
def rstrip (l : List Char) : List Char := (l.reverse.dropWhile isSpaceB).reverse

/-- Python `str.strip()`: drop whitespace from both ends (get_record line 215). -/
def stripWs (l : List Char) : List Char := rstrip (lstrip l)

/-- Python `str.ljust(n)`: pad on the right with spaces up to length `n`. -/
def ljust (l : List Char) (n : Nat) : List Char := l ++ List.replicate (n - l.length) ' '

/-- A decoded record: one value per field (the `fields` dict of a cache Record). -/
structure UserRecord where
  id : List Char
  username : List Char
  password_hash : List Char
  ip_reg : List Char
  last_logged : List Char
  last_ip : List Char
deriving DecidableEq, Repr

/-- Field projection out of a record. -/
def getField (r : UserRecord) : Field → List Char
  | Field.id => r.id
  | Field.username => r.username
  | Field.password_hash => r.password_hash
  | Field.ip_reg => r.ip_reg
  | Field.last_logged => r.last_logged
  | Field.last_ip => r.last_ip

/-- Field assignment into a record. -/
def setField (r : UserRecord) : Field → List Char → UserRecord
  | Field.id, v => { r with id := v }
  | Field.username, v => { r with username := v }
  | Field.password_hash, v => { r with password_hash := v }
  | Field.ip_reg, v => { r with ip_reg := v }
  | Field.last_logged, v => { r with last_logged := v }
  | Field.last_ip, v => { r with last_ip := v }

/-- Slot encoding (add_record lines 158-164 and update_record lines 296-301):
each field value is ljust-padded to its max length and the fields are joined
with the separator byte in canonical order. -/
def encodeRecord (r : UserRecord) : List Char :=
  ljust r.id 10 ++ ('|' ::
    (ljust r.username 24 ++ ('|' ::
      (ljust r.password_hash 64 ++ ('|' ::
        (ljust r.ip_reg 16 ++ ('|' ::
          (ljust r.last_logged 19 ++ ('|' :: ljust r.last_ip 16)))))))))

/-- Python `bytes.split(sep)` for a single-byte separator. -/
def splitOnChar (sep : Char) : List Char → List (List Char)
  | [] => [[]]
  | c :: rest =>
    if c = sep then [] :: splitOnChar sep rest
    else
      match splitOnChar sep rest with
      | [] => [[c]]
      | h :: t => (c :: h) :: t

/-- Slot decoding (get_record lines 212-216): split the raw slot on the separator,
fail unless exactly the expected field count results, and strip each part. -/
def decodeRecord (raw : List Char) : Option UserRecord :=
  match splitOnChar '|' raw with
  | [a, b, c, d, e, f] =>
    some ⟨stripWs a, stripWs b, stripWs c, stripWs d, stripWs e, stripWs f⟩
  | _ => none

/-- Decimal digit character. -/
def digitChar (d : Nat) : Char := Char.ofNat (48 + d)

/-- Fuelled digit emitter: writes the decimal digits of `n` (most significant
first) in front of `acc`.  The fuel only bounds the recursion depth; `n + 1`
is always enough since `n` has at most `n + 1` digits. -/
def natToCharsCore : Nat → Nat → List Char → List Char
  | 0, _, acc => acc
  | fuel + 1, n, acc =>
    if n < 10 then digitChar n :: acc
    else natToCharsCore fuel (n / 10) (digitChar (n % 10) :: acc)

/-- Python `str(n)` for a natural number. -/
def natToChars (n : Nat) : List Char := natToCharsCore (n + 1) n []

/-- Numeric value of a digit character. -/
def digitVal (c : Char) : Nat := c.toNat - 48

/-- Python `int(s)` restricted to plain digit strings, as `None` on failure. -/
def charsToNat? (l : List Char) : Option Nat :=
  if !l.isEmpty && l.all Char.isDigit then
    some (l.foldl (fun a c => a * 10 + digitVal c) 0)
  else none

/-- The `_sanitize_shard_prefix` helper (shard.py lines 44-46): the lower-cased
first letter of the username, or the fallback bucket 'q'. -/
def sanitizeShardPfx : List Char → List Char
  | [] => ['q']
  | c :: _ => if c.isAlpha then [c.toLower] else ['q']

/-- The `shard[:-1], int(shard[-1])` split used by get/update/delete
(shard.py lines 198, 225, 282): everything before the last character is taken
as the prefix and only the last character as the shard index.  A non-digit last
character raises ValueError in the source, returned as `none` here; the source
would raise an uncaught IndexError on an empty token, also `none` here (no
claim exercises that corner). -/
def splitShardTok (shard : List Char) : Option (List Char × Nat) :=
  match shard.reverse with
  | [] => none
  | c :: _ => if c.isDigit then some (shard.dropLast, digitVal c) else none

/-- Reference parsing as performed by get/update/delete: `_validate_ref`
(split on ':' into exactly two parts with a numeric slot id, lines 52-58)
followed by the last-character shard split. -/
def parseRefFull (ref : List Char) : Option (List Char × Nat × Nat) :=
  match splitOnChar ':' ref with
  | [shard, idxs] =>
    match charsToNat? idxs, splitShardTok shard with
    | some rid, some (pfx, si) => some (pfx, si, rid)
    | _, _ => none
  | _ => none

/-- Python file write at an offset through `seek(off)` then `write(d)`:
a seek past EOF fills the gap with zero bytes. -/
def writeAt (content : List Char) (off : Nat) (d : List Char) : List Char :=
  (content.take off ++ List.replicate (off - content.length) '\x00') ++ d ++
    content.drop (off + d.length)

/-- Per-prefix directory document (the `.info` file): shard count, free lists
keyed by shard index, bounded audit log, and the secondary index. -/
structure DirInfo where
  shards : Nat
  free : List (Nat × List Nat)
  log : List (Nat × List Char)
  index : List ((Field × List Char) × List (List Char))
deriving DecidableEq, Repr

/-- The zero-value directory `_load_info` falls back to (shard.py line 69). -/
def zeroDirInfo : DirInfo := ⟨0, [], [], []⟩

/-- Whole-store state: data files by path, directory documents by prefix,
and the read-through cache mapping a reference to (record, timestamp). -/
structure DBState where
  files : List (List Char × List Char)
  infos : List (List Char × DirInfo)
  cache : List (List Char × (UserRecord × Nat))
deriving DecidableEq, Repr

/-- The store before any operation. -/
def emptyState : DBState := ⟨[], [], []⟩

instance {ε α : Type} [DecidableEq ε] [DecidableEq α] : DecidableEq (Except ε α) :=
  fun x y =>
    match x, y with
    | Except.ok a, Except.ok b =>
      if h : a = b then isTrue (by rw [h])
      else isFalse (fun hh => by cases hh; exact h rfl)
    | Except.error a, Except.error b =>
      if h : a = b then isTrue (by rw [h])
      else isFalse (fun hh => by cases hh; exact h rfl)
    | Except.ok _, Except.error _ => isFalse (fun hh => by cases hh)
    | Except.error _, Except.ok _ => isFalse (fun hh => by cases hh)

/-- The `_load_info` call inside an operation: the persisted document for the
prefix, or the zero-value directory when none exists. -/
def loadInfo (st : DBState) (pfx : List Char) : DirInfo :=
  (getA st.infos pfx).getD zeroDirInfo

/-- Python `log[-LOG_LIMIT:]`: keep only the last LOG_LIMIT audit entries. -/
def trimLog (l : List (Nat × List Char)) : List (Nat × List Char) :=
  l.drop (l.length - LOG_LIMIT)

/-- Removal of a reference from one index key (delete_record lines 251-254 and
update_record lines 317-318): only when the key exists and holds the reference,
and only the first occurrence is removed. -/
def removeRefA (ix : List ((Field × List Char) × List (List Char)))
    (key : Field × List Char) (ref : List Char) :
    List ((Field × List Char) × List (List Char)) :=
  match getA ix key with
  | some refs => if ref ∈ refs then setA ix key (removeFirst refs ref) else ix
  | none => ix

/-- Shard index the allocator starts from (add_record line 135):
`info['shards'] - 1 if info['shards'] else 0`. -/
def siOf (info : DirInfo) : Nat := if info.shards = 0 then 0 else info.shards - 1

/-- Slot allocation (add_record lines 139-149): pop the FIRST id of the free
list if non-empty, else append at `file_size / RECORD_SIZE` (0 for a missing
file).  Returns the id and the remaining free list. -/
def allocSlot (free : List Nat) (fsize : Option Nat) : Nat × List Nat :=
  match free with
  | i :: rest => (i, rest)
  | [] => ((fsize.getD 0) / RECORD_SIZE, [])

/-- Outcome of the allocation section of add_record (lines 134-157 and 172):
the allocated id, the shard index and count after a possible rollover, the
remaining free list for the pre-rollover shard index, the data path the write
goes to (computed at line 136, BEFORE the rollover branch), and the reference
string built at line 172. -/
structure AddPlan where
  recordId : Nat
  shardIndex : Nat
  shards : Nat
  freeRest : List Nat
  dataPath : List Char
  ref : List Char
deriving DecidableEq, Repr

/-- The allocation section of add_record, as one function of the prefix, the
loaded directory, and the size of the current shard file. -/
def addPlan (pfx : List Char) (info : DirInfo) (fsize : Option Nat) : AddPlan :=
  let si := siOf info
  let dataPath := pfx ++ natToChars si
  let free := (getA info.free si).getD []
  let alloc := allocSlot free fsize
  if alloc.1 ≥ RECORD_LIMIT then
    { recordId := 0, shardIndex := si + 1, shards := si + 2, freeRest := alloc.2,
      dataPath := dataPath, ref := pfx ++ natToChars (si + 1) ++ ':' :: natToChars 0 }
  else
    { recordId := alloc.1, shardIndex := si,
      shards := if info.shards = 0 then 1 else info.shards,
      freeRest := alloc.2, dataPath := dataPath,
      ref := pfx ++ natToChars si ++ ':' :: natToChars alloc.1 }

/-- The `add_record` operation (shard.py lines 112-188).  Python `isalpha` is
modelled by `Char.isAlpha` (faithful for ASCII input). -/
def addRecord (st : DBState) (now : Nat)
    (username password_hash ip_reg last_logged last_ip : List Char) :
    Except (List Char) (List Char × DBState) :=
  match username with
  | [] => Except.error ("Username must start with a letter".data)
  | c :: _ =>
    if !c.isAlpha then Except.error ("Username must start with a letter".data)
    else
      let cu := cleanField username
      let cp := cleanField password_hash
      let cr := cleanField ip_reg
      let cl := cleanField last_logged
      let ci := cleanField last_ip
      if cu.length > MAX_LENGTHS Field.username then
        Except.error ("username too long".data)
      else if cp.length > MAX_LENGTHS Field.password_hash then
        Except.error ("password_hash too long".data)
      else if cr.length > MAX_LENGTHS Field.ip_reg then
        Except.error ("ip_reg too long".data)
      else if cl.length > MAX_LENGTHS Field.last_logged then
        Except.error ("last_logged too long".data)
      else if ci.length > MAX_LENGTHS Field.last_ip then
        Except.error ("last_ip too long".data)
      else
        let pfx := sanitizeShardPfx cu
        let info := loadInfo st pfx
        let plan := addPlan pfx info
          ((getA st.files (pfx ++ natToChars (siOf info))).map List.length)
        let rec0 : UserRecord := ⟨natToChars plan.recordId, cu, cp, cr, cl, ci⟩
        let oldContent := (getA st.files plan.dataPath).getD []
        let files' := setA st.files plan.dataPath
          (writeAt oldContent (plan.recordId * RECORD_SIZE) (encodeRecord rec0))
        let info' : DirInfo :=
          { shards := plan.shards,
            free := setA info.free (siOf info) plan.freeRest,
            log := trimLog (info.log ++ [(now, "CREATE ".data ++ plan.ref)]),
            index := FIELDS.foldl
              (fun ix f => appendA ix (f, getField rec0 f) plan.ref) info.index }
        Except.ok (plan.ref,
          { files := files', infos := setA st.infos pfx info',
            cache := setA st.cache plan.ref (rec0, now) })

/-- Projection of a record on a requested field list (`fields or FIELDS`). -/
def project (r : UserRecord) (fs : Option (List Field)) : List (Field × List Char) :=
  (fs.getD FIELDS).map (fun f => (f, getField r f))

/-- The `get_record` operation (shard.py lines 190-220): cache hit first; on a
miss, parse the reference, read exactly one slot from the data file, fail on a
short read or a corrupt slot, else populate the cache and return the
projection. -/
def getRecord (st : DBState) (ref : List Char) (fs : Option (List Field)) (now : Nat) :
    Option (List (Field × List Char)) × DBState :=
  match getA st.cache ref with
  | some (rec0, _) => (some (project rec0 fs), st)
  | none =>
    match parseRefFull ref with
    | none => (none, st)
    | some (pfx, si, rid) =>
      match getA st.files (pfx ++ natToChars si) with
      | none => (none, st)
      | some content =>
        let raw := (content.drop (rid * RECORD_SIZE)).take RECORD_SIZE
        if raw.length ≠ RECORD_SIZE then (none, st)
        else
          match decodeRecord raw with
          | none => (none, st)
          | some rec0 =>
            (some (project rec0 fs), { st with cache := setA st.cache ref (rec0, now) })

/-- The `delete_record` operation (shard.py lines 222-261): parse, fetch the
old record (failing if not live), zero-fill the slot, append the freed id to
the shard's free list, remove the reference from the index key of every prior
field value, persist, and purge the cache entry. -/
def deleteRecord (st : DBState) (ref : List Char) (now : Nat) : Bool × DBState :=
  match parseRefFull ref with
  | none => (false, st)
  | some (pfx, si, rid) =>
    match getRecord st ref none now with
    | (none, st1) => (false, st1)
    | (some old, st1) =>
      let path := pfx ++ natToChars si
      match getA st1.files path with
      | none => (false, st1)
      | some content =>
        let files' := setA st1.files path
          (writeAt content (rid * RECORD_SIZE) (List.replicate RECORD_SIZE '\x00'))
        let info := loadInfo st1 pfx
        let info' : DirInfo :=
          { shards := info.shards,
            free := appendA info.free si rid,
            log := trimLog (info.log ++ [(now, "DELETE ".data ++ ref)]),
            index := old.foldl (fun ix kv => removeRefA ix kv ref) info.index }
        (true, { files := files', infos := setA st1.infos pfx info',
                 cache := eraseA st1.cache ref })

/-- The cleaning pass of update_record (lines 269-274): drop the id field,
clean every remaining value and truncate it to the field's max length.
Unknown field-name strings are dropped by the source; the `Field` domain of
the embedding already excludes them. -/
def cleanUpdates (ups : List (Field × List Char)) : List (Field × List Char) :=
  ups.filterMap (fun kv =>
    if kv.1 = Field.id then none
    else some (kv.1, (cleanField kv.2).take (MAX_LENGTHS kv.1)))

/-- Rebuild a record from a full projection (the dict `full` in update_record). -/
def recFromPairs (l : List (Field × List Char)) : UserRecord :=
  ⟨(getA l Field.id).getD [], (getA l Field.username).getD [],
   (getA l Field.password_hash).getD [], (getA l Field.ip_reg).getD [],
   (getA l Field.last_logged).getD [], (getA l Field.last_ip).getD []⟩

/-- Sequential assignment of update values into a record (`full[k] = v`). -/
def applyUpdates (r : UserRecord) (ups : List (Field × List Char)) : UserRecord :=
  ups.foldl (fun r0 kv => setField r0 kv.1 kv.2) r

/-- The `update_record` operation (shard.py lines 263-329): fetch (failing if
not live), clean and truncate the updates, parse the reference, re-fetch the
full record, merge, re-encode and rewrite the whole slot with the id forced to
the parsed slot id, move the reference between index keys for changed values,
persist, and refresh the cache entry in place with a new timestamp.  A missing
data file at the write raises an uncaught FileNotFoundError in the source,
returned as an error here. -/
def updateRecord (st : DBState) (ref : List Char) (ups : List (Field × List Char))
    (now : Nat) : Except (List Char) (Bool × DBState) :=
  match getRecord st ref none now with
  | (none, st1) => Except.ok (false, st1)
  | (some old, st1) =>
    let cleaned := cleanUpdates ups
    match parseRefFull ref with
    | none => Except.ok (false, st1)
    | some (pfx, si, rid) =>
      match getRecord st1 ref none now with
      | (none, _) => Except.error ("TypeError".data)
      | (some fullP, st2) =>
        let merged := setField (applyUpdates (recFromPairs fullP) cleaned)
          Field.id (natToChars rid)
        let path := pfx ++ natToChars si
        match getA st2.files path with
        | none => Except.error ("FileNotFoundError".data)
        | some content =>
          let files' := setA st2.files path
            (writeAt content (rid * RECORD_SIZE) (encodeRecord merged))
          let info := loadInfo st2 pfx
          let info' : DirInfo :=
            { shards := info.shards, free := info.free,
              log := trimLog (info.log ++ [(now, "UPDATE ".data ++ ref)]),
              index := cleaned.foldl (fun ix kv =>
                appendA (removeRefA ix (kv.1, (getA old kv.1).getD []) ref)
                  (kv.1, kv.2) ref) info.index }
          let cache' := match getA st2.cache ref with
            | none => st2.cache
            | some (crec, _) => setA st2.cache ref (applyUpdates crec cleaned, now)
          Except.ok (true, { files := files', infos := setA st2.infos pfx info',
                             cache := cache' })

/-- Loop body of find_records (lines 342-345): re-fetch one indexed reference
through get_record and keep it, tagged with the reference, when still live. -/
def findStep (fs : Option (List Field)) (now : Nat)
    (acc : List (List Char × List (Field × List Char)) × DBState) (ref : List Char) :
    List (List Char × List (Field × List Char)) × DBState :=
  match getRecord acc.2 ref fs now with
  | (some r, st') => (acc.1 ++ [(ref, r)], st')
  | (none, st') => (acc.1, st')

/-- The `find_records` operation (shard.py lines 331-346): load ONLY the
directory of the prefix derived from the queried VALUE, take the reference
list under the "field:value" key of that single directory, and re-fetch each
reference through get_record, tagging results with their reference.  The
invalid-field-name ValueError of lines 333-334 is outside the `Field` domain
of the embedding. -/
def findRecords (st : DBState) (f : Field) (value : List Char)
    (fs : Option (List Field)) (now : Nat) :
    List (List Char × List (Field × List Char)) × DBState :=
  let info := loadInfo st (sanitizeShardPfx value)
  let refs := (getA info.index (f, value)).getD []
  refs.foldl (findStep fs now) ([], st)

/-- Outcome of the raw directory read inside `_load_info` (lines 71-82):
the backing file may be absent, the awaited read may exceed IO_TIMEOUT
(`asyncio.wait_for` raises TimeoutError), any other I/O error may occur, or
the read may succeed with content whose JSON parse yields a directory or
fails. -/
inductive ReadResult where
  | absent
  | timeout
  | ioError
  | ok (parsed : Option DirInfo)

/-- Dispatch of `_load_info` (shard.py lines 66-92) on the read outcome: the
`except Exception` at line 74 catches the TimeoutError of the expired
IO_TIMEOUT exactly like any other read fault and returns the zero-value
directory; no error of any kind reaches the caller (the return type has no
error channel).  `_save_info` (lines 94-109) wraps no call in a timeout at
all. -/
def loadInfoResult : ReadResult → DirInfo
  | ReadResult.absent => zeroDirInfo
  | ReadResult.timeout => zeroDirInfo
  | ReadResult.ioError => zeroDirInfo
  | ReadResult.ok none => zeroDirInfo
  | ReadResult.ok (some d) => d

/-- Modelled from the spec: the behaviour §4.2 prescribes for a load whose
I/O exceeds the bounded timeout — a `Timeout` error returned to the caller. -/
def loadInfoSpecTimeout : ReadResult → Except (List Char) DirInfo
  | ReadResult.absent => Except.ok zeroDirInfo
  | ReadResult.timeout => Except.error ("Timeout".data)
  | ReadResult.ioError => Except.ok zeroDirInfo
  | ReadResult.ok none => Except.ok zeroDirInfo
  | ReadResult.ok (some d) => Except.ok d

/-- Lock objects created in ShardManager.__init__ (shard.py lines 34-36):
exactly three process-wide asyncio.Lock instances.  No per-prefix lock map
exists anywhere in the class. -/
inductive LockId where
  | meta
  | data
  | cache
deriving DecidableEq, Repr

/-- The locks held around the directory-load / slot-write / directory-save
sequence of add_record (lines 132-133), delete_record (lines 235-236) and
update_record (lines 287-288): always the same global `meta_lock` and
`data_lock`, whatever the prefix of the record being mutated. -/
def mutationLocks (_pfx : List Char) : List LockId := [LockId.meta, LockId.data]

/-- Store state after `CREATE alice secret_hash 127.0.0.1 2025-06-16T12:00:00
127.0.0.1` against an empty store at time 10 (the returned reference is a0:0). -/
def exStAlice : DBState :=
  match addRecord emptyState 10 "alice".data "secret_hash".data "127.0.0.1".data
      "2025-06-16T12:00:00".data "127.0.0.1".data with
  | Except.ok (_, st) => st
  | Except.error _ => emptyState

/-- Store state after `CREATE bob h 10.0.0.7 t 9.9.9.9` against an empty store
at time 5 (the returned reference is b0:0, under prefix b). -/
def stBob : DBState :=
  match addRecord emptyState 5 "bob".data "h".data "10.0.0.7".data "t".data
      "9.9.9.9".data with
  | Except.ok (_, st) => st
  | Except.error _ => emptyState

/-- A prefix-a directory that already counts 13 shards, so that the next
create lands in shard index 12 (a two-digit shard index). -/
def stA12pre : DBState := ⟨[], [("a".data, ⟨13, [], [], []⟩)], []⟩

/-- Store state after creating alice on top of `stA12pre` (reference a12:0). -/
def stA12 : DBState :=
  match addRecord stA12pre 7 "alice".data "h".data "1.1.1.1".data "t".data
      "2.2.2.2".data with
  | Except.ok (_, st) => st
  | Except.error _ => emptyState

/-- The same store with the cache dropped, forcing get_record to the disk path. -/
def stA12nc : DBState := { stA12 with cache := [] }

/-- A well-formed record whose username carries a leading space: each value is
within its max length and free of separator and newline bytes. -/
def rLeadingSpace : UserRecord :=
  ⟨"0".data, " alice".data, "x".data, "1.1.1.1".data, "t".data, "2.2.2.2".data⟩

/-- Precondition of the round-trip law for one field value: within the max
length, free of separator and newline bytes, and stable under `strip` (no
leading or trailing whitespace) — the last condition is the amendment the
counterexample forces. -/
def FieldOk (v : List Char) (n : Nat) : Prop :=
  '|' ∉ v ∧ '\n' ∉ v ∧ v.length ≤ n ∧ stripWs v = v

instance (v : List Char) (n : Nat) : Decidable (FieldOk v n) := by
  unfold FieldOk
  infer_instance

/-- Precondition of the round-trip law exactly as the claim states it: within
the max length and free of separator and newline bytes (no whitespace
condition). -/
def FieldOkOrig (v : List Char) (n : Nat) : Prop :=
  '|' ∉ v ∧ '\n' ∉ v ∧ v.length ≤ n

instance (v : List Char) (n : Nat) : Decidable (FieldOkOrig v n) := by
  unfold FieldOkOrig
  infer_instance

/-- The record of the spec's create-then-get example. -/
def rAlice : UserRecord :=
  ⟨"0".data, "alice".data, "secret_hash".data, "127.0.0.1".data,
   "2025-06-16T12:00:00".data, "127.0.0.1".data⟩

theorem natToCharsCore_eq : ∀ n fuel acc, n < fuel →
    natToCharsCore fuel n acc = natToChars n ++ acc := by
  intro n
  induction n using Nat.strong_induction_on with
  | _ n ih =>
    intro fuel acc h
    match fuel, h with
    | fuel + 1, h =>
      by_cases h10 : n < 10
      · simp [natToCharsCore, natToChars, h10]
      · have hd : n / 10 < n := Nat.div_lt_self (by omega) (by omega)
        simp only [natToCharsCore, if_neg h10, natToChars]
        rw [ih (n / 10) hd fuel _ (by omega), ih (n / 10) hd n _ (by omega)]
        simp [natToChars]

theorem natToChars_eq (n : Nat) :
    natToChars n = if n < 10 then [digitChar n]
                   else natToChars (n / 10) ++ [digitChar (n % 10)] := by
  by_cases h10 : n < 10
  · simp [natToChars, natToCharsCore, h10]
  · simp only [if_neg h10]
    have h0 : natToChars n = natToCharsCore n (n / 10) [digitChar (n % 10)] := by
      simp only [natToChars, natToCharsCore, if_neg h10]
    have hd : n / 10 < n := Nat.div_lt_self (by omega) (by omega)
    rw [h0, natToCharsCore_eq (n / 10) n _ hd]

theorem getA_setA_self {α β : Type} [DecidableEq α] (l : List (α × β)) (k : α) (v : β) :
    getA (setA l k v) k = some v := by
  induction l with
  | nil => simp [setA, getA]
  | cons kv rest ih =>
    by_cases h : k = kv.1
    · simp [setA, getA, h]
    · simp only [setA]
      rw [if_neg h]
      simp [getA, h, ih]

theorem getA_setA_ne {α β : Type} [DecidableEq α] (l : List (α × β)) (k k' : α) (v : β)
    (h : k' ≠ k) : getA (setA l k v) k' = getA l k' := by
  induction l with
  | nil => simp [setA, getA, h]
  | cons kv rest ih =>
    by_cases hk : k = kv.1
    · subst hk
      simp [setA, getA, h, ih]
    · simp only [setA]
      rw [if_neg hk]
      by_cases hk' : k' = kv.1
      · simp [getA, hk']
      · simp [getA, hk', ih]

theorem getA_eraseA_self {α β : Type} [DecidableEq α] (l : List (α × β)) (k : α) :
    getA (eraseA l k) k = none := by
  induction l with
  | nil => rfl
  | cons kv rest ih =>
    by_cases h : kv.1 = k
    · have he : eraseA (kv :: rest) k = eraseA rest k := by
        simp [eraseA, List.filter_cons, h]
      rw [he, ih]
    · have he : eraseA (kv :: rest) k = kv :: eraseA rest k := by
        simp [eraseA, List.filter_cons, h]
      rw [he]
      simp only [getA]
      rw [if_neg (fun hh => h hh.symm), ih]

theorem getA_appendA_self {α β : Type} [DecidableEq α] (l : List (α × List β)) (k : α) (x : β) :
    getA (appendA l k x) k = some ((getA l k).getD [] ++ [x]) := by
  unfold appendA
  cases h : getA l k with
  | none =>
    simp only [Option.getD]
    induction l with
    | nil => simp [getA]
    | cons kv rest ih =>
      by_cases hk : k = kv.1
      · simp [getA, hk] at h
      · simp only [getA, if_neg hk] at h
        simp [getA, if_neg hk, ih h]
  | some xs => simp [getA_setA_self]

theorem writeAt_take_drop (content : List Char) (off : Nat) (d : List Char) :
    ((writeAt content off d).drop off).take d.length = d := by
  unfold writeAt
  have hlen : (content.take off ++ List.replicate (off - content.length) '\x00').length = off := by
    simp [List.length_take, List.length_replicate]
    omega
  rw [List.append_assoc]
  have := List.drop_left (content.take off ++ List.replicate (off - content.length) '\x00')
    (d ++ content.drop (off + d.length))
  rw [hlen] at this
  rw [this, List.take_left]

theorem splitOnChar_no_sep (sep : Char) (l : List Char) (h : sep ∉ l) :
    splitOnChar sep l = [l] := by
  induction l with
  | nil => rfl
  | cons c rest ih =>
    have hc : ¬ c = sep := fun hh => h (hh ▸ List.mem_cons_self c rest)
    have hr : sep ∉ rest := fun hh => h (List.mem_cons_of_mem c hh)
    simp only [splitOnChar, if_neg hc, ih hr]

theorem splitOnChar_append (sep : Char) (l rest : List Char) (h : sep ∉ l) :
    splitOnChar sep (l ++ sep :: rest) = l :: splitOnChar sep rest := by
  induction l with
  | nil =>
    simp [splitOnChar]
  | cons c t ih =>
    have hc : ¬ c = sep := fun hh => h (hh ▸ List.mem_cons_self c t)
    have ht : sep ∉ t := fun hh => h (List.mem_cons_of_mem c hh)
    rw [List.cons_append]
    simp only [splitOnChar, if_neg hc]
    rw [ih ht]

theorem not_mem_ljust (v : List Char) (n : Nat) (c : Char) (hv : c ∉ v) (hs : c ≠ ' ') :
    c ∉ ljust v n := by
  simp only [ljust, List.mem_append, List.mem_replicate]
  rintro (h | ⟨-, h⟩)
  · exact hv h
  · exact hs h

theorem dropWhile_replicate_space (m : Nat) (l : List Char) :
    (List.replicate m ' ' ++ l).dropWhile isSpaceB = l.dropWhile isSpaceB := by
  induction m with
  | zero => simp
  | succ k ih =>
    simp only [List.replicate_succ, List.cons_append, List.dropWhile_cons]
    simp only [show isSpaceB ' ' = true from rfl, if_pos trivial]
    simpa using ih

theorem rstrip_sublist (l : List Char) : List.Sublist (rstrip l) l := by
  unfold rstrip
  have h : List.Sublist (l.reverse.dropWhile isSpaceB) l.reverse :=
    List.dropWhile_sublist _
  simpa using h.reverse

theorem strip_eq_self_parts (v : List Char) (h : stripWs v = v) :
    lstrip v = v ∧ rstrip v = v := by
  have h1 : List.Sublist (lstrip v) v := List.dropWhile_sublist _
  have h2 : List.Sublist (rstrip (lstrip v)) (lstrip v) := rstrip_sublist _
  have hlen2 : (rstrip (lstrip v)).length ≤ (lstrip v).length := h2.length_le
  have hlen1 : (lstrip v).length ≤ v.length := h1.length_le
  have hv : rstrip (lstrip v) = v := h
  have hlenv : (rstrip (lstrip v)).length = v.length := by rw [hv]
  have hl : lstrip v = v := h1.eq_of_length (by omega)
  refine ⟨hl, ?_⟩
  rw [hl] at hv
  exact hv

theorem head_not_space_of_lstrip (c : Char) (t : List Char)
    (h : lstrip (c :: t) = c :: t) : isSpaceB c = false := by
  by_contra hc
  have hc' : isSpaceB c = true := by
    cases hb : isSpaceB c
    · exact absurd hb hc
    · rfl
  have : lstrip (c :: t) = lstrip t := by
    simp [lstrip, List.dropWhile_cons, hc']
  rw [this] at h
  have : (lstrip t).length ≤ t.length := (List.dropWhile_sublist _).length_le
  rw [h] at this
  simp at this

theorem rstrip_eq_iff_reverse (v : List Char) :
    rstrip v = v ↔ v.reverse.dropWhile isSpaceB = v.reverse := by
  unfold rstrip
  constructor
  · intro h
    have := congrArg List.reverse h
    simpa using this
  · intro h
    rw [h]
    simp

theorem stripWs_ljust (v : List Char) (n : Nat) (h : stripWs v = v) :
    stripWs (ljust v n) = v := by
  cases v with
  | nil =>
    have hh : lstrip (List.replicate (n - ([] : List Char).length) ' ') = [] := by
      have h0 := dropWhile_replicate_space (n - ([] : List Char).length) ([] : List Char)
      simpa [lstrip] using h0
    unfold stripWs ljust
    simp only [List.nil_append]
    rw [hh]
    rfl
  | cons c t =>
    obtain ⟨hl, hr⟩ := strip_eq_self_parts _ h
    have hc : isSpaceB c = false := head_not_space_of_lstrip c t hl
    unfold stripWs ljust
    have hlj : lstrip ((c :: t) ++ List.replicate (n - (c :: t).length) ' ') =
        (c :: t) ++ List.replicate (n - (c :: t).length) ' ' := by
      simp [lstrip, List.dropWhile_cons, hc]
    rw [hlj]
    rw [rstrip_eq_iff_reverse] at hr
    unfold rstrip
    rw [List.reverse_append, List.reverse_replicate, dropWhile_replicate_space, hr]
    simp

/-- C4: round-trip law of the slot codec, amended — for every record whose
field values are within their max lengths, free of separator and newline
bytes, AND free of leading/trailing whitespace (the added condition the
counterexample forces, since decode strips both ends of each part), decoding
the encoding reproduces the record exactly. -/
theorem C4_decode_encode_roundtrip (r : UserRecord)
    (h1 : FieldOk r.id 10) (h2 : FieldOk r.username 24)
    (h3 : FieldOk r.password_hash 64) (h4 : FieldOk r.ip_reg 16)
    (h5 : FieldOk r.last_logged 19) (h6 : FieldOk r.last_ip 16) :
    decodeRecord (encodeRecord r) = some r := by
  obtain ⟨hp1, -, -, hs1⟩ := h1
  obtain ⟨hp2, -, -, hs2⟩ := h2
  obtain ⟨hp3, -, -, hs3⟩ := h3
  obtain ⟨hp4, -, -, hs4⟩ := h4
  obtain ⟨hp5, -, -, hs5⟩ := h5
  obtain ⟨hp6, -, -, hs6⟩ := h6
  have hl1 : '|' ∉ ljust r.id 10 := not_mem_ljust _ _ _ hp1 (by decide)
  have hl2 : '|' ∉ ljust r.username 24 := not_mem_ljust _ _ _ hp2 (by decide)
  have hl3 : '|' ∉ ljust r.password_hash 64 := not_mem_ljust _ _ _ hp3 (by decide)
  have hl4 : '|' ∉ ljust r.ip_reg 16 := not_mem_ljust _ _ _ hp4 (by decide)
  have hl5 : '|' ∉ ljust r.last_logged 19 := not_mem_ljust _ _ _ hp5 (by decide)
  have hl6 : '|' ∉ ljust r.last_ip 16 := not_mem_ljust _ _ _ hp6 (by decide)
  unfold decodeRecord encodeRecord
  rw [splitOnChar_append _ _ _ hl1, splitOnChar_append _ _ _ hl2,
    splitOnChar_append _ _ _ hl3, splitOnChar_append _ _ _ hl4,
    splitOnChar_append _ _ _ hl5, splitOnChar_no_sep _ _ hl6]
  show some ⟨stripWs (ljust r.id 10), stripWs (ljust r.username 24),
    stripWs (ljust r.password_hash 64), stripWs (ljust r.ip_reg 16),
    stripWs (ljust r.last_logged 19), stripWs (ljust r.last_ip 16)⟩ = some r
  rw [stripWs_ljust _ _ hs1, stripWs_ljust _ _ hs2, stripWs_ljust _ _ hs3,
    stripWs_ljust _ _ hs4, stripWs_ljust _ _ hs5, stripWs_ljust _ _ hs6]

/-- Witness for C4: the round-trip theorem applied to the spec's alice record. -/
theorem C4_decode_encode_roundtrip_witness :
    decodeRecord (encodeRecord rAlice) = some rAlice :=
  C4_decode_encode_roundtrip rAlice (by decide) (by decide) (by decide)
    (by decide) (by decide) (by decide)

/-- Counterexample to C4 as stated: a record whose values all satisfy the
claim's precondition (within max length, no separator, no newline) but whose
username carries a leading space, which decode's strip removes — the
round trip does not reproduce the record. -/
theorem C4_counterexample :
    FieldOkOrig rLeadingSpace.id 10 ∧ FieldOkOrig rLeadingSpace.username 24 ∧
    FieldOkOrig rLeadingSpace.password_hash 64 ∧ FieldOkOrig rLeadingSpace.ip_reg 16 ∧
    FieldOkOrig rLeadingSpace.last_logged 19 ∧ FieldOkOrig rLeadingSpace.last_ip 16 ∧
    decodeRecord (encodeRecord rLeadingSpace) ≠ some rLeadingSpace := by
  decide

theorem digitChar_isDigit (d : Nat) (hd : d < 10) : (digitChar d).isDigit = true := by
  interval_cases d <;> decide

theorem digitVal_digitChar (d : Nat) (hd : d < 10) : digitVal (digitChar d) = d := by
  interval_cases d <;> decide

/-- Core of C10: for a shard token built from a prefix and a two-or-more-digit
shard index, the `shard[:-1], int(shard[-1])` split yields the prefix extended
by all but the last digit, paired with only the last digit. -/
theorem splitShardTok_multidigit (p : List Char) (si : Nat) (hsi : 10 ≤ si) :
    splitShardTok (p ++ natToChars si) =
      some (p ++ natToChars (si / 10), si % 10) := by
  have hrepr : natToChars si = natToChars (si / 10) ++ [digitChar (si % 10)] := by
    rw [natToChars_eq si, if_neg (by omega)]
  have hmod : si % 10 < 10 := Nat.mod_lt _ (by omega)
  unfold splitShardTok
  rw [hrepr, show p ++ (natToChars (si / 10) ++ [digitChar (si % 10)]) =
      (p ++ natToChars (si / 10)) ++ [digitChar (si % 10)] from
      (List.append_assoc _ _ _).symm]
  rw [List.reverse_concat]
  simp only [digitChar_isDigit _ hmod, if_pos trivial, List.dropLast_concat,
    digitVal_digitChar _ hmod]

theorem getField_setField_self (r : UserRecord) (k : Field) (v : List Char) :
    getField (setField r k v) k = v := by
  cases k <;> rfl

theorem getField_setField_id (r : UserRecord) (k : Field) (v : List Char)
    (h : k ≠ Field.id) : getField (setField r k v) Field.id = r.id := by
  cases k
  · exact absurd rfl h
  all_goals rfl

theorem getRecord_cacheHit (st : DBState) (ref : List Char) (fs : Option (List Field))
    (now : Nat) (r : UserRecord) (ts : Nat) (h : getA st.cache ref = some (r, ts)) :
    getRecord st ref fs now = (some (project r fs), st) := by
  unfold getRecord
  rw [h]

/-- A successful get leaves the record in the cache of the resulting state,
returns exactly its projection, and touches neither files nor directories. -/
theorem getRecord_some_cache (st : DBState) (ref : List Char) (now : Nat)
    (res : List (Field × List Char)) (st' : DBState)
    (h : getRecord st ref none now = (some res, st')) :
    ∃ r ts, getA st'.cache ref = some (r, ts) ∧ res = project r none ∧
      st'.files = st.files ∧ st'.infos = st.infos := by
  unfold getRecord at h
  split at h
  case _ r0 ts0 heq =>
    injection h with h1 h2
    injection h1 with h1
    subst h2
    exact ⟨r0, ts0, heq, h1.symm, rfl, rfl⟩
  case _ heq =>
    split at h
    case _ => cases h
    case _ pfx si rid hp =>
      split at h
      case _ => cases h
      case _ content hf =>
        dsimp only at h
        split at h
        case _ => cases h
        case _ hlen =>
          split at h
          case _ => cases h
          case _ rec0 hd =>
            injection h with h1 h2
            injection h1 with h1
            subst h2
            refine ⟨rec0, now, ?_, h1.symm, rfl, rfl⟩
            simp [getA_setA_self]

theorem not_mem_removeFirst {β : Type} [DecidableEq β] (l : List β) (x : β)
    (h : l.Nodup) : x ∉ removeFirst l x := by
  induction l with
  | nil => simp [removeFirst]
  | cons y rest ih =>
    by_cases hy : y = x
    · subst hy
      simp only [removeFirst, if_pos rfl]
      exact (List.nodup_cons.mp h).1
    · simp only [removeFirst, if_neg hy]
      intro hmem
      rcases List.mem_cons.mp hmem with h1 | h1
      · exact hy h1.symm
      · exact ih (List.nodup_cons.mp h).2 h1

theorem getA_removeRefA_ne (ix : List ((Field × List Char) × List (List Char)))
    (key key' : Field × List Char) (ref : List Char) (h : key' ≠ key) :
    getA (removeRefA ix key ref) key' = getA ix key' := by
  unfold removeRefA
  cases hg : getA ix key with
  | none => rfl
  | some refs =>
    dsimp only
    by_cases hm : ref ∈ refs
    · rw [if_pos hm]
      exact getA_setA_ne _ _ _ _ h
    · rw [if_neg hm]

theorem not_mem_getA_removeRefA (ix : List ((Field × List Char) × List (List Char)))
    (key : Field × List Char) (ref : List Char)
    (h : ((getA ix key).getD []).Nodup) :
    ref ∉ ((getA (removeRefA ix key ref) key).getD []) := by
  unfold removeRefA
  cases hg : getA ix key with
  | none =>
    rw [hg]
    simp
  | some refs =>
    dsimp only
    rw [hg] at h
    by_cases hm : ref ∈ refs
    · rw [if_pos hm, getA_setA_self]
      simp only [Option.getD_some] at h ⊢
      exact not_mem_removeFirst refs ref h
    · rw [if_neg hm, hg]
      simpa using hm

/-- Every result find_records returns is tagged with a reference drawn from
the index list it started from. -/
theorem findStep_mem (fs : Option (List Field)) (now : Nat) (refs : List (List Char)) :
    ∀ (acc : List (List Char × List (Field × List Char)) × DBState)
      (res : List Char × List (Field × List Char)),
      res ∈ (refs.foldl (findStep fs now) acc).1 → res ∈ acc.1 ∨ res.1 ∈ refs := by
  induction refs with
  | nil =>
    intro acc res h
    exact Or.inl h
  | cons ref0 rest ih =>
    intro acc res h
    rw [List.foldl_cons] at h
    rcases ih (findStep fs now acc ref0) res h with h1 | h2
    · unfold findStep at h1
      split at h1
      case _ r st' heq =>
        rcases List.mem_append.mp h1 with h3 | h3
        · exact Or.inl h3
        · have hres : res = (ref0, r) := by simpa using h3
          subst hres
          exact Or.inr (List.mem_cons_self _ _)
      case _ st' heq => exact Or.inl h1
    · exact Or.inr (List.mem_cons_of_mem _ h2)

/-- C1: evidence for the find defect — after creating bob (prefix b) with
ip_reg 10.0.0.7, the reference is present in prefix b's directory index under
the ip_reg key, yet FIND ip_reg 10.0.0.7 returns nothing because find_records
derives the search directory from the queried value (prefix q for "1"), while
the username query, whose value hashes to the owning prefix, does find it. -/
theorem C1_find_consults_only_value_prefix :
    (findRecords stBob Field.ip_reg "10.0.0.7".data none 6).1 = [] ∧
    getA (loadInfo stBob "b".data).index (Field.ip_reg, "10.0.0.7".data) =
      some ["b0:0".data] ∧
    sanitizeShardPfx "10.0.0.7".data = "q".data ∧
    (findRecords stBob Field.username "bob".data none 6).1.map Prod.fst =
      ["b0:0".data] := by
  decide

/-- C2 (amended): create cleans each value and then length-VALIDATES it — a
cleaned value exceeding its field's maximum makes add_record fail with the
"<field> too long" error (checked in dict insertion order), instead of
truncating silently. -/
theorem C2_overlong_value_rejected (st : DBState) (now : Nat)
    (u ph ir ll li : List Char) (c : Char) (t : List Char)
    (hu : u = c :: t) (hc : c.isAlpha = true) :
    ((cleanField u).length > 24 →
      addRecord st now u ph ir ll li = Except.error ("username too long".data)) ∧
    ((cleanField u).length ≤ 24 → (cleanField ph).length > 64 →
      addRecord st now u ph ir ll li = Except.error ("password_hash too long".data)) ∧
    ((cleanField u).length ≤ 24 → (cleanField ph).length ≤ 64 →
      (cleanField ir).length > 16 →
      addRecord st now u ph ir ll li = Except.error ("ip_reg too long".data)) ∧
    ((cleanField u).length ≤ 24 → (cleanField ph).length ≤ 64 →
      (cleanField ir).length ≤ 16 → (cleanField ll).length > 19 →
      addRecord st now u ph ir ll li = Except.error ("last_logged too long".data)) ∧
    ((cleanField u).length ≤ 24 → (cleanField ph).length ≤ 64 →
      (cleanField ir).length ≤ 16 → (cleanField ll).length ≤ 19 →
      (cleanField li).length > 16 →
      addRecord st now u ph ir ll li = Except.error ("last_ip too long".data)) := by
  subst hu
  refine ⟨fun h1 => ?_, fun h1 h2 => ?_, fun h1 h2 h3 => ?_,
    fun h1 h2 h3 h4 => ?_, fun h1 h2 h3 h4 h5 => ?_⟩
  · have e1 : (cleanField (c :: t)).length > MAX_LENGTHS Field.username := by
      simp only [MAX_LENGTHS]; omega
    simp [addRecord, hc, e1]
  · have e1 : ¬ ((cleanField (c :: t)).length > MAX_LENGTHS Field.username) := by
      simp only [MAX_LENGTHS]; omega
    have e2 : (cleanField ph).length > MAX_LENGTHS Field.password_hash := by
      simp only [MAX_LENGTHS]; omega
    simp [addRecord, hc, e1, e2]
  · have e1 : ¬ ((cleanField (c :: t)).length > MAX_LENGTHS Field.username) := by
      simp only [MAX_LENGTHS]; omega
    have e2 : ¬ ((cleanField ph).length > MAX_LENGTHS Field.password_hash) := by
      simp only [MAX_LENGTHS]; omega
    have e3 : (cleanField ir).length > MAX_LENGTHS Field.ip_reg := by
      simp only [MAX_LENGTHS]; omega
    simp [addRecord, hc, e1, e2, e3]
  · have e1 : ¬ ((cleanField (c :: t)).length > MAX_LENGTHS Field.username) := by
      simp only [MAX_LENGTHS]; omega
    have e2 : ¬ ((cleanField ph).length > MAX_LENGTHS Field.password_hash) := by
      simp only [MAX_LENGTHS]; omega
    have e3 : ¬ ((cleanField ir).length > MAX_LENGTHS Field.ip_reg) := by
      simp only [MAX_LENGTHS]; omega
    have e4 : (cleanField ll).length > MAX_LENGTHS Field.last_logged := by
      simp only [MAX_LENGTHS]; omega
    simp [addRecord, hc, e1, e2, e3, e4]
  · have e1 : ¬ ((cleanField (c :: t)).length > MAX_LENGTHS Field.username) := by
      simp only [MAX_LENGTHS]; omega
    have e2 : ¬ ((cleanField ph).length > MAX_LENGTHS Field.password_hash) := by
      simp only [MAX_LENGTHS]; omega
    have e3 : ¬ ((cleanField ir).length > MAX_LENGTHS Field.ip_reg) := by
      simp only [MAX_LENGTHS]; omega
    have e4 : ¬ ((cleanField ll).length > MAX_LENGTHS Field.last_logged) := by
      simp only [MAX_LENGTHS]; omega
    have e5 : (cleanField li).length > MAX_LENGTHS Field.last_ip := by
      simp only [MAX_LENGTHS]; omega
    simp [addRecord, hc, e1, e2, e3, e4, e5]

/-- Witness for C2: a 25-character username is rejected with the
"username too long" error. -/
theorem C2_overlong_value_rejected_witness :
    addRecord emptyState 0 "aaaaaaaaaaaaaaaaaaaaaaaaa".data "h".data "i".data
      "t".data "l".data = Except.error ("username too long".data) :=
  (C2_overlong_value_rejected emptyState 0 "aaaaaaaaaaaaaaaaaaaaaaaaa".data
    "h".data "i".data "t".data "l".data 'a' "aaaaaaaaaaaaaaaaaaaaaaaa".data
    rfl rfl).1 (by decide)

/-- Counterexample to C2 as stated: an overlong (25-character) username DOES
cause create to fail with an error — no silent truncation happens. -/
theorem C2_counterexample :
    addRecord emptyState 0 "aaaaaaaaaaaaaaaaaaaaaaaaa".data "h".data "i".data
      "t".data "l".data = Except.error ("username too long".data) ∧
    ("aaaaaaaaaaaaaaaaaaaaaaaaa".data).length > MAX_LENGTHS Field.username := by
  decide

/-- C3 (amended): a directory load whose read exceeds IO_TIMEOUT does NOT
surface a Timeout error — the TimeoutError is caught like any other read
fault and converted into the zero-value directory, the same result an absent
document produces. -/
theorem C3_load_timeout_swallowed :
    loadInfoResult ReadResult.timeout = zeroDirInfo ∧
    loadInfoResult ReadResult.timeout = loadInfoResult ReadResult.ioError ∧
    loadInfoResult ReadResult.absent = zeroDirInfo :=
  ⟨rfl, rfl, rfl⟩

/-- Counterexample to C3 as stated: at the concrete timed-out read, the code's
load returns the ordinary zero-value directory (its return type has no error
channel at all), where the spec-modelled load returns a Timeout error. -/
theorem C3_counterexample :
    loadInfoResult ReadResult.timeout = zeroDirInfo ∧
    loadInfoSpecTimeout ReadResult.timeout = Except.error ("Timeout".data) :=
  ⟨rfl, rfl⟩

/-- C5 (amended): the allocator pops the FIRST id of the free list (FIFO
order, not necessarily the smallest), appends at file_size / RECORD_SIZE only
when the free list is empty, and — the claim's concrete scenario — after
deleting record id 0 the next create for that prefix reuses id 0 and the
shard file is not extended. -/
theorem C5_alloc_fifo_and_reuse :
    (∀ h t fsize, allocSlot (h :: t) fsize = (h, t)) ∧
    (∀ n, allocSlot [] (some n) = (n / RECORD_SIZE, [])) ∧
    allocSlot [] none = (0, []) ∧
    ((deleteRecord exStAlice "a0:0".data 30).1 = true ∧
      ∃ st2, addRecord (deleteRecord exStAlice "a0:0".data 30).2 40 "anna".data
          "h2".data "1.1.1.1".data "t2".data "2.2.2.2".data =
          Except.ok ("a0:0".data, st2) ∧
        (getA st2.files "a0".data).map List.length = some 154) := by
  exact ⟨fun h t fsize => rfl, fun n => rfl, rfl, rfl, _, rfl, rfl⟩

/-- Counterexample to C5 as stated: with free list [5, 2] the allocator hands
out id 5 (the first, oldest-freed entry) although the smaller id 2 is also in
the list. -/
theorem C5_counterexample :
    (addPlan "a".data ⟨1, [(0, [5, 2])], [], []⟩ (some 154)).recordId = 5 ∧
    2 ∈ [5, 2] ∧ (2 : Nat) < 5 := by
  decide

/-- C6: evidence for the locking defect — the lock set acquired around the
load-allocate-write-save sequence is the same pair of process-wide locks for
every prefix (ShardManager.__init__ creates three global locks and no
per-prefix map), so operations on prefixes with different first letters are
serialized rather than running in parallel. -/
theorem C6_locks_prefix_independent :
    mutationLocks "a".data = mutationLocks "b".data ∧
    (∀ p q : List Char, mutationLocks p = mutationLocks q) :=
  ⟨rfl, fun _ _ => rfl⟩

/-- C7: evidence for the rollover defect — when the current shard (index 0)
is full, the allocation section increments the shard count to 2, resets the
id to 0 and names the reference a1:0 in the NEW shard, but the data path the
record bytes are written to is still a0, the OLD shard file (data_path is
computed before the rollover branch and never recomputed). -/
theorem C7_rollover_writes_old_shard :
    addPlan "a".data ⟨1, [(0, [])], [], []⟩ (some (RECORD_LIMIT * RECORD_SIZE)) =
      ⟨0, 1, 2, [], "a0".data, "a1:0".data⟩ ∧
    "a".data ++ natToChars 0 = "a0".data ∧
    "a".data ++ natToChars 1 = "a1".data ∧
    "a0".data ≠ "a1".data := by
  decide

/-- C10 (amended): get/update/delete do parse the shard token's last character
alone as the shard index (prefix "a1", index 2 for the token "a12"), so for a
shard index of 10 or more the parsed pair differs from the one add_record
used — but because the data path is the plain concatenation of prefix and
index, the parsed pair denotes the SAME data file, and the record stays
retrievable through its own reference (update and delete do, however, consult
the directory of the misparsed prefix). -/
theorem C10_parse_misreads_but_path_coincides (p : List Char) (si : Nat)
    (hsi : 10 ≤ si) :
    splitShardTok (p ++ natToChars si) =
      some (p ++ natToChars (si / 10), si % 10) ∧
    (p ++ natToChars (si / 10)) ++ natToChars (si % 10) = p ++ natToChars si ∧
    si % 10 ≠ si := by
  refine ⟨splitShardTok_multidigit p si hsi, ?_, ?_⟩
  · have hmod : si % 10 < 10 := Nat.mod_lt _ (by omega)
    rw [natToChars_eq si, if_neg (by omega), natToChars_eq (si % 10), if_pos hmod,
      List.append_assoc]
  · have hmod : si % 10 < 10 := Nat.mod_lt _ (by omega)
    omega

/-- Witness for C10: the parse of the token a12 at the concrete index 12. -/
theorem C10_parse_misreads_witness :
    splitShardTok ("a".data ++ natToChars 12) =
      some ("a".data ++ natToChars (12 / 10), 12 % 10) ∧
    ("a".data ++ natToChars (12 / 10)) ++ natToChars (12 % 10) =
      "a".data ++ natToChars 12 ∧
    12 % 10 ≠ 12 :=
  C10_parse_misreads_but_path_coincides "a".data 12 (by omega)

/-- Counterexample to C10 as stated: a record created with shard index 12 gets
reference a12:0; get_record parses the different pair (prefix a1, index 2),
yet the concatenated data path a12 is the very file add_record wrote, so the
record IS retrievable through its own reference (shown on the cache-free
store, forcing the disk path). -/
theorem C10_counterexample :
    addRecord stA12pre 7 "alice".data "h".data "1.1.1.1".data "t".data
      "2.2.2.2".data = Except.ok ("a12:0".data, stA12) ∧
    parseRefFull "a12:0".data = some ("a1".data, 2, 0) ∧
    ("a1".data, (2 : Nat)) ≠ ("a".data, (12 : Nat)) ∧
    "a1".data ++ natToChars 2 = "a".data ++ natToChars 12 ∧
    (getRecord stA12nc "a12:0".data (some [Field.username]) 9).1 =
      some [(Field.username, "alice".data)] := by
  decide

/-- C8: after a successful update of a live record (one the get inside update
resolves) setting field `k` to a clean, within-length value `v`, the update
succeeds, the cache entry is refreshed by merging with its timestamp replaced
by the update time, the very next get projected on `k` returns exactly `v`,
and the record's id field is unchanged (it still returns the pre-update
record's id). -/
theorem C8_update_then_get (st st1 : DBState) (ref : List Char)
    (old : List (Field × List Char)) (k : Field) (v : List Char)
    (pfx : List Char) (si rid : Nat) (content : List Char) (tU tG : Nat)
    (hk : k ≠ Field.id) (hcv : cleanField v = v) (hlen : v.length ≤ MAX_LENGTHS k)
    (hget : getRecord st ref none tU = (some old, st1))
    (hparse : parseRefFull ref = some (pfx, si, rid))
    (hfile : getA st.files (pfx ++ natToChars si) = some content) :
    ∃ st2 r ts,
      updateRecord st ref [(k, v)] tU = Except.ok (true, st2) ∧
      getA st1.cache ref = some (r, ts) ∧
      old = project r none ∧
      getA st2.cache ref = some (setField r k v, tU) ∧
      (getRecord st2 ref (some [k]) tG).1 = some [(k, v)] ∧
      (getRecord st2 ref (some [Field.id]) tG).1 = some [(Field.id, r.id)] := by
  obtain ⟨r, ts, hcache1, hold, hfiles1, hinfos1⟩ :=
    getRecord_some_cache st ref tU old st1 hget
  have hclean : cleanUpdates [(k, v)] = [(k, v)] := by
    simp [cleanUpdates, hk, hcv, List.take_of_length_le hlen]
  have hget2 : getRecord st1 ref none tU = (some (project r none), st1) :=
    getRecord_cacheHit st1 ref none tU r ts hcache1
  have hfile1 : getA st1.files (pfx ++ natToChars si) = some content := by
    rw [hfiles1]; exact hfile
  have hrp : recFromPairs (project r none) = r := rfl
  have hupd : ∃ st2, updateRecord st ref [(k, v)] tU = Except.ok (true, st2) ∧
      st2.cache = setA st1.cache ref (setField r k v, tU) := by
    simp only [updateRecord, hget, hclean, hparse, hget2, hfile1, hcache1, hrp,
      applyUpdates, List.foldl]
    exact ⟨_, rfl, rfl⟩
  obtain ⟨st2, hu, hcache2⟩ := hupd
  have hc2 : getA st2.cache ref = some (setField r k v, tU) := by
    rw [hcache2]; exact getA_setA_self _ _ _
  refine ⟨st2, r, ts, hu, hcache1, hold, hc2, ?_, ?_⟩
  · rw [getRecord_cacheHit _ _ _ _ _ _ hc2]
    simp [project, getField_setField_self]
  · rw [getRecord_cacheHit _ _ _ _ _ _ hc2]
    simp [project, getField_setField_id _ _ _ hk]

/-- C9: a delete whose reference does not resolve to a live record fails; a
successful delete zero-fills the slot, appends the freed id to that shard's
free list, removes the reference from every index key derived from its prior
field values (given the index holds no duplicate references per key), and
purges the cache entry, so the very next get reports not-found and a
subsequent find on the prior username no longer includes the reference. -/
theorem C9_delete_spec (st st1 : DBState) (ref : List Char)
    (old : List (Field × List Char)) (pfx uname : List Char) (si rid : Nat)
    (content : List Char) (tD tG tF : Nat)
    (hparse : parseRefFull ref = some (pfx, si, rid))
    (hget : getRecord st ref none tD = (some old, st1))
    (hfile : getA st.files (pfx ++ natToChars si) = some content)
    (hnd : ∀ f : Field,
      ((getA (loadInfo st pfx).index (f, (getA old f).getD [])).getD []).Nodup)
    (huname : uname = (getA old Field.username).getD [])
    (hsan : sanitizeShardPfx uname = pfx) :
    (∀ st0 ref0 t0, (getRecord st0 ref0 none t0).1 = none →
      (deleteRecord st0 ref0 t0).1 = false) ∧
    ∃ st2, deleteRecord st ref tD = (true, st2) ∧
      getA st2.cache ref = none ∧
      (getRecord st2 ref none tG).1 = none ∧
      getA st2.files (pfx ++ natToChars si) =
        some (writeAt content (rid * RECORD_SIZE)
          (List.replicate RECORD_SIZE '\x00')) ∧
      getA (loadInfo st2 pfx).free si =
        some ((getA (loadInfo st pfx).free si).getD [] ++ [rid]) ∧
      (∀ f : Field,
        ref ∉ ((getA (loadInfo st2 pfx).index (f, (getA old f).getD [])).getD [])) ∧
      (∀ res, res ∈ (findRecords st2 Field.username uname none tF).1 →
        res.1 ≠ ref) := by
  constructor
  · intro st0 ref0 t0 h0
    unfold deleteRecord
    cases hp : parseRefFull ref0 with
    | none => rfl
    | some tri =>
      obtain ⟨p0, s0, i0⟩ := tri
      dsimp only
      have heq : getRecord st0 ref0 none t0 = (none, (getRecord st0 ref0 none t0).2) := by
        rw [← h0]
      rw [heq]
  · obtain ⟨r, ts, hcache1, hold, hfiles1, hinfos1⟩ :=
      getRecord_some_cache st ref tD old st1 hget
    have hfile1 : getA st1.files (pfx ++ natToChars si) = some content := by
      rw [hfiles1]; exact hfile
    have hli : loadInfo st1 pfx = loadInfo st pfx := by
      unfold loadInfo; rw [hinfos1]
    have hdel : ∃ st2, deleteRecord st ref tD = (true, st2) ∧
        st2.cache = eraseA st1.cache ref ∧
        st2.files = setA st1.files (pfx ++ natToChars si)
          (writeAt content (rid * RECORD_SIZE) (List.replicate RECORD_SIZE '\x00')) ∧
        st2.infos = setA st1.infos pfx
          { shards := (loadInfo st1 pfx).shards,
            free := appendA (loadInfo st1 pfx).free si rid,
            log := trimLog ((loadInfo st1 pfx).log ++ [(tD, "DELETE ".data ++ ref)]),
            index := old.foldl (fun ix kv => removeRefA ix kv ref)
              (loadInfo st1 pfx).index } := by
      simp only [deleteRecord, hparse, hget, hfile1]
      exact ⟨_, rfl, rfl, rfl, rfl⟩
    obtain ⟨st2, hdel, hc2, hf2, hi2⟩ := hdel
    have hcache2 : getA st2.cache ref = none := by
      rw [hc2]; exact getA_eraseA_self _ _
    have hfiles2 : getA st2.files (pfx ++ natToChars si) =
        some (writeAt content (rid * RECORD_SIZE) (List.replicate RECORD_SIZE '\x00')) := by
      rw [hf2]; exact getA_setA_self _ _ _
    have hinfo2 : loadInfo st2 pfx =
        { shards := (loadInfo st1 pfx).shards,
          free := appendA (loadInfo st1 pfx).free si rid,
          log := trimLog ((loadInfo st1 pfx).log ++ [(tD, "DELETE ".data ++ ref)]),
          index := old.foldl (fun ix kv => removeRefA ix kv ref)
            (loadInfo st1 pfx).index } := by
      unfold loadInfo
      rw [hi2, getA_setA_self]
      rfl
    have hraw : ((writeAt content (rid * RECORD_SIZE)
        (List.replicate RECORD_SIZE '\x00')).drop (rid * RECORD_SIZE)).take RECORD_SIZE =
        List.replicate RECORD_SIZE '\x00' := by
      have h0 := writeAt_take_drop content (rid * RECORD_SIZE)
        (List.replicate RECORD_SIZE '\x00')
      rwa [List.length_replicate] at h0
    have hdz : decodeRecord (List.replicate RECORD_SIZE '\x00') = none := by decide
    have hmiss : (getRecord st2 ref none tG).1 = none := by
      simp only [getRecord, hcache2, hparse, hfiles2, hraw, hdz, List.length_replicate]
      simp
    subst hold
    have hK : ∀ f : Field, (getA (project r none) f).getD [] = getField r f := by
      intro f; cases f <;> rfl
    have hproj : project r none =
        [(Field.id, r.id), (Field.username, r.username),
         (Field.password_hash, r.password_hash), (Field.ip_reg, r.ip_reg),
         (Field.last_logged, r.last_logged), (Field.last_ip, r.last_ip)] := rfl
    have hnd' : ∀ f : Field,
        ((getA (loadInfo st pfx).index (f, getField r f)).getD []).Nodup := by
      intro f
      have h0 := hnd f
      rwa [hK f] at h0
    have hidx2 : (loadInfo st2 pfx).index =
        removeRefA (removeRefA (removeRefA (removeRefA (removeRefA (removeRefA
          (loadInfo st pfx).index
          (Field.id, r.id) ref) (Field.username, r.username) ref)
          (Field.password_hash, r.password_hash) ref) (Field.ip_reg, r.ip_reg) ref)
          (Field.last_logged, r.last_logged) ref) (Field.last_ip, r.last_ip) ref := by
      rw [hinfo2]
      dsimp only
      rw [hli, hproj]
      rfl
    have hIdx : ∀ f : Field,
        ref ∉ ((getA (loadInfo st2 pfx).index (f, getField r f)).getD []) := by
      intro f
      rw [hidx2]
      cases f
      · rw [getA_removeRefA_ne _ _ _ _ (by simp), getA_removeRefA_ne _ _ _ _ (by simp),
          getA_removeRefA_ne _ _ _ _ (by simp), getA_removeRefA_ne _ _ _ _ (by simp),
          getA_removeRefA_ne _ _ _ _ (by simp)]
        exact not_mem_getA_removeRefA _ _ _ (hnd' Field.id)
      · rw [getA_removeRefA_ne _ _ _ _ (by simp), getA_removeRefA_ne _ _ _ _ (by simp),
          getA_removeRefA_ne _ _ _ _ (by simp), getA_removeRefA_ne _ _ _ _ (by simp)]
        exact not_mem_getA_removeRefA _ _ _
          (by rw [getA_removeRefA_ne _ _ _ _ (by simp)]; exact hnd' Field.username)
      · rw [getA_removeRefA_ne _ _ _ _ (by simp), getA_removeRefA_ne _ _ _ _ (by simp),
          getA_removeRefA_ne _ _ _ _ (by simp)]
        exact not_mem_getA_removeRefA _ _ _
          (by rw [getA_removeRefA_ne _ _ _ _ (by simp),
            getA_removeRefA_ne _ _ _ _ (by simp)]; exact hnd' Field.password_hash)
      · rw [getA_removeRefA_ne _ _ _ _ (by simp), getA_removeRefA_ne _ _ _ _ (by simp)]
        exact not_mem_getA_removeRefA _ _ _
          (by rw [getA_removeRefA_ne _ _ _ _ (by simp),
            getA_removeRefA_ne _ _ _ _ (by simp),
            getA_removeRefA_ne _ _ _ _ (by simp)]; exact hnd' Field.ip_reg)
      · rw [getA_removeRefA_ne _ _ _ _ (by simp)]
        exact not_mem_getA_removeRefA _ _ _
          (by rw [getA_removeRefA_ne _ _ _ _ (by simp),
            getA_removeRefA_ne _ _ _ _ (by simp),
            getA_removeRefA_ne _ _ _ _ (by simp),
            getA_removeRefA_ne _ _ _ _ (by simp)]; exact hnd' Field.last_logged)
      · exact not_mem_getA_removeRefA _ _ _
          (by rw [getA_removeRefA_ne _ _ _ _ (by simp),
            getA_removeRefA_ne _ _ _ _ (by simp),
            getA_removeRefA_ne _ _ _ _ (by simp),
            getA_removeRefA_ne _ _ _ _ (by simp),
            getA_removeRefA_ne _ _ _ _ (by simp)]; exact hnd' Field.last_ip)
    have hun : uname = r.username := by rw [huname, hK]; exact rfl
    refine ⟨st2, hdel, hcache2, hmiss, hfiles2, ?_, ?_, ?_⟩
    · rw [hinfo2]
      dsimp only
      rw [getA_appendA_self, hli]
    · intro f
      rw [hK f]
      exact hIdx f
    · intro res hres
      have hres' : res ∈ ((((getA (loadInfo st2 pfx).index
          (Field.username, r.username)).getD [])).foldl (findStep none tF) ([], st2)).1 := by
        unfold findRecords at hres
        rw [hsan] at hres
        rw [hun] at hres
        exact hres
      rcases findStep_mem none tF _ ([], st2) res hres' with h1 | h2
      · simp at h1
      · intro hcontra
        exact hIdx Field.username (hcontra ▸ h2)

/-- Witness for C8: the spec's scenario — UPDATE a0:0 last_ip=192.168.0.2
after creating alice, then GET a0:0 last_ip. -/
theorem C8_update_then_get_witness :
    ∃ st2 r ts,
      updateRecord exStAlice "a0:0".data [(Field.last_ip, "192.168.0.2".data)] 20 =
        Except.ok (true, st2) ∧
      getA exStAlice.cache "a0:0".data = some (r, ts) ∧
      project rAlice none = project r none ∧
      getA st2.cache "a0:0".data =
        some (setField r Field.last_ip "192.168.0.2".data, 20) ∧
      (getRecord st2 "a0:0".data (some [Field.last_ip]) 21).1 =
        some [(Field.last_ip, "192.168.0.2".data)] ∧
      (getRecord st2 "a0:0".data (some [Field.id]) 21).1 =
        some [(Field.id, r.id)] :=
  C8_update_then_get exStAlice exStAlice "a0:0".data (project rAlice none)
    Field.last_ip "192.168.0.2".data "a".data 0 0 (encodeRecord rAlice) 20 21
    (by decide) (by decide) (by decide) (by decide) (by decide) (by decide)

/-- Witness for C9: DELETE a0:0 after creating alice, then GET a0:0 and
FIND username alice. -/
theorem C9_delete_spec_witness :
    ∃ st2, deleteRecord exStAlice "a0:0".data 30 = (true, st2) ∧
      getA st2.cache "a0:0".data = none ∧
      (getRecord st2 "a0:0".data none 31).1 = none ∧
      getA st2.files ("a".data ++ natToChars 0) =
        some (writeAt (encodeRecord rAlice) (0 * RECORD_SIZE)
          (List.replicate RECORD_SIZE '\x00')) ∧
      getA (loadInfo st2 "a".data).free 0 =
        some ((getA (loadInfo exStAlice "a".data).free 0).getD [] ++ [0]) ∧
      (∀ f : Field, "a0:0".data ∉
        ((getA (loadInfo st2 "a".data).index
          (f, (getA (project rAlice none) f).getD [])).getD [])) ∧
      (∀ res, res ∈ (findRecords st2 Field.username "alice".data none 32).1 →
        res.1 ≠ "a0:0".data) :=
  (C9_delete_spec exStAlice exStAlice "a0:0".data (project rAlice none) "a".data
    "alice".data 0 0 (encodeRecord rAlice) 30 31 32
    (by decide) (by decide) (by decide)
    (by intro f; cases f <;> decide) (by decide) (by decide)).2

end ShardDB
